import Mathlib

/-!
# OdePixels: a WS2812 pixel store and its SPI waveform encoder

A shallow embedding of `src/OdePixels.h` and `src/OdePixels.cpp`.

* Machine integers are natural numbers; a result is reduced modulo `2^w`
  wherever the C++ type of the expression can wrap (`uint8_t` loop counter,
  `uint8_t` locals of `hsv2u32`, `uint32_t` sums and shifts).
* The pixel buffer `uint32_t *pixelData` is the list of the words it points
  to.  Every array access of the source goes through `peek`, `poke` or
  `TxBuf.put`, which fail with `Fault.outOfBounds` outside the array, where
  the source has undefined behaviour.
* `show` is the only function of the source whose loop can fail to finish;
  it takes a step budget and fails with `Fault.outOfFuel` when it is used up.
-/

namespace OdePixels

/-- Ways in which a run of the embedded code fails to produce a result. -/
inductive Fault where
  /-- an access outside an array (undefined behaviour in the source) -/
  | outOfBounds
  /-- the step budget ran out before the loop finished -/
  | outOfFuel
  deriving DecidableEq, Repr

deriving instance DecidableEq for Except

/-- Result of running a piece of the embedded code. -/
abbrev Run (α : Type) := Except Fault α

/-- Symbol byte for a one bit: `WS2812_H = 0b11111000`. -/
def WS2812_H : Nat := 0b11111000

/-- Symbol byte for a zero bit: `WS2812_L = 0b11100000`. -/
def WS2812_L : Nat := 0b11100000

/-- Marker byte in front of the frame: `WS2812_RESET = 0`. -/
def WS2812_RESET : Nat := 0

/-- Array read `d[i]`. -/
def peek (d : List Nat) (i : Nat) : Run Nat :=
  match d[i]? with
  | some v => .ok v
  | none => .error .outOfBounds

/-- Array write `d[i] = v`. -/
def poke (d : List Nat) (i v : Nat) : Run (List Nat) :=
  if i < d.length then .ok (d.set i v) else .error .outOfBounds

end OdePixels

/-- The data members of `class OdePixels` that the pixel operations use:
`uint32_t pixelCount` and the words behind `uint32_t *pixelData`. -/
structure OdePixels where
  pixelCount : Nat
  pixelData : List Nat
  deriving DecidableEq, Repr

namespace OdePixels

/-- A store as the constructor's contract describes it: `pixelCount` is a
`uint32_t` and the buffer holds exactly `pixelCount` words. -/
def WF (s : OdePixels) : Prop :=
  s.pixelCount < 2 ^ 32 ∧ s.pixelData.length = s.pixelCount

instance (s : OdePixels) : Decidable s.WF := by
  unfold WF; infer_instance

/-- Embeds `getPixelData()`: the words behind the returned pointer. -/
def getPixelData (s : OdePixels) : List Nat := s.pixelData

/-- Embeds `rgb2u32(uint8_t r, uint8_t g, uint8_t b)`:
`((uint32_t)g << 16) | ((uint32_t)r << 8) | b`, the shifts in `uint32_t`. -/
def rgb2u32 (r g b : Nat) : Nat :=
  ((g <<< 16) % 2 ^ 32) ||| ((r <<< 8) % 2 ^ 32) ||| b

/-- Embeds `hsv2u32(uint16_t hue, uint8_t sat, uint8_t val)`.  The operands are
promoted to `int`, where nothing overflows and no difference is negative for
arguments within their types; each assignment to a `uint8_t` local reduces
modulo `256`. -/
def hsv2u32 (hue sat val : Nat) : Nat :=
  let region := (hue / 43) % 256
  let remainder := ((hue - region * 43) * 6) % 256
  let p := ((val * (255 - sat)) >>> 8) % 256
  let q := ((val * (255 - ((sat * remainder) >>> 8))) >>> 8) % 256
  let t := ((val * (255 - ((sat * (255 - remainder)) >>> 8))) >>> 8) % 256
  match region with
  | 0 => rgb2u32 val t p
  | 1 => rgb2u32 q val p
  | 2 => rgb2u32 p val t
  | 3 => rgb2u32 p q val
  | 4 => rgb2u32 t p val
  | _ => rgb2u32 val p q

/-- Embeds `setPixelColor(uint32_t n, uint32_t color)`.  The second component of
the result is the index that `ESP_LOGE` reports, `none` when nothing is
reported. -/
def setPixelColor (s : OdePixels) (n color : Nat) : Run (OdePixels × Option Nat) :=
  if n ≥ s.pixelCount then
    .ok (s, some n)
  else do
    let d ← poke s.pixelData n color
    .ok ({ s with pixelData := d }, none)

/-- The overload `setPixelColor(uint32_t n, uint8_t r, uint8_t g, uint8_t b)`. -/
def setPixelColorRGB (s : OdePixels) (n r g b : Nat) : Run (OdePixels × Option Nat) :=
  setPixelColor s n (rgb2u32 r g b)

/-- Embeds `setPixelColorHSV(n, hue, sat, val)`. -/
def setPixelColorHSV (s : OdePixels) (n hue sat val : Nat) : Run (OdePixels × Option Nat) :=
  setPixelColor s n (hsv2u32 hue sat val)

/-- The loop `for (uint32_t i = first; i < end; i++) pixelData[i] = color;`
from the state where `k` iterations remain (`k = end - i`, zero when
`i ≥ end`).  `i++` does not wrap: in the body `i < end ≤ 2^32 - 1`. -/
def fillLoop (color : Nat) : Nat → Nat → List Nat → Run (List Nat)
  | 0, _, d => .ok d
  | k + 1, i, d => do
    let d' ← poke d i color
    fillLoop color k (i + 1) d'

/-- Embeds `fill(uint32_t color, uint32_t first, uint32_t count)`: `end` is the
`uint32_t` sum `first + count`, replaced by `pixelCount` when it exceeds
`pixelCount` or when `count == 0`. -/
def fill (s : OdePixels) (color first count : Nat) : Run OdePixels := do
  let end0 := (first + count) % 2 ^ 32
  let stop := if end0 > s.pixelCount ∨ count = 0 then s.pixelCount else end0
  let d ← fillLoop color (stop - first) first s.pixelData
  .ok { s with pixelData := d }

/-- Embeds `clear()`: `for (uint32_t i = 0; i < pixelCount; i++) pixelData[i] = 0;`. -/
def clear (s : OdePixels) : Run OdePixels := do
  let d ← fillLoop 0 (s.pixelCount - 0) 0 s.pixelData
  .ok { s with pixelData := d }

/-- The local array `uint8_t data[...]` of `show` with the write pointer `p`
as an offset into it; `none` is a byte not written yet. -/
structure TxBuf where
  data : List (Option Nat)
  p : Nat
  deriving DecidableEq, Repr

/-- The store `*p++ = v`. -/
def TxBuf.put (b : TxBuf) (v : Nat) : Run TxBuf :=
  if b.p < b.data.length then
    .ok { data := b.data.set b.p (some v), p := b.p + 1 }
  else .error .outOfBounds

/-- The inner loop of `show`, `for (uint8_t j = 0; j < 24; j++)`, from the
state where `k` iterations remain: one symbol byte for bit 23 of `pixel`,
then `pixel <<= 1` in `uint32_t`. -/
def showBits : Nat → Nat → TxBuf → Run TxBuf
  | 0, _, b => .ok b
  | k + 1, pixel, b => do
    let b' ← b.put (if pixel &&& 0x800000 ≠ 0 then WS2812_H else WS2812_L)
    showBits k ((pixel <<< 1) % 2 ^ 32) b'

/-- The outer loop of `show`, `for (uint8_t i = 0; i < pixelCount; i++)`:
`i` is compared as a `uint32_t` and `i++` wraps modulo `256`.  Each test of
the loop condition takes one unit of fuel. -/
def showLoop (s : OdePixels) : Nat → Nat → TxBuf → Run TxBuf
  | 0, _, _ => .error .outOfFuel
  | fuel + 1, i, b =>
    if i < s.pixelCount then do
      let pixel ← peek s.pixelData i
      let b' ← showBits 24 pixel b
      showLoop s fuel ((i + 1) % 256) b'
    else .ok b

/-- Embeds `show()` up to the call of the transport: the array `data` of
`pixelCount * 24 + 1` bytes (the size computed in `uint32_t`) that is handed
to `spi_device_polling_transmit` as `tx_buffer`. -/
def showPixels (fuel : Nat) (s : OdePixels) : Run (List (Option Nat)) := do
  let b0 : TxBuf := { data := List.replicate ((s.pixelCount * 24 + 1) % 2 ^ 32) none, p := 0 }
  let b1 ← b0.put WS2812_RESET
  let b ← showLoop s fuel 0 b1
  .ok b.data

/-- Symbol byte that stands for one bit of a pixel. -/
def symbolOf (bit : Bool) : Nat := if bit then WS2812_H else WS2812_L

/-- The bound `end` that `fill` loops to. -/
def fillStop (s : OdePixels) (first count : Nat) : Nat :=
  if (first + count) % 2 ^ 32 > s.pixelCount ∨ count = 0 then s.pixelCount
  else (first + count) % 2 ^ 32


/-- The local `region` of `hsv2u32`: `hue / 43` as a `uint8_t`. -/
def hsvRegion (hue : Nat) : Nat := (hue / 43) % 256

/-- The local `remainder` of `hsv2u32`: `(hue - region * 43) * 6` as a `uint8_t`. -/
def hsvRemainder (hue : Nat) : Nat := ((hue - hsvRegion hue * 43) * 6) % 256

/-- The local `p` of `hsv2u32`. -/
def hsvP (sat val : Nat) : Nat := ((val * (255 - sat)) >>> 8) % 256

/-- The local `q` of `hsv2u32`. -/
def hsvQ (hue sat val : Nat) : Nat :=
  ((val * (255 - ((sat * hsvRemainder hue) >>> 8))) >>> 8) % 256

/-- The local `t` of `hsv2u32`. -/
def hsvT (hue sat val : Nat) : Nat :=
  ((val * (255 - ((sat * (255 - hsvRemainder hue)) >>> 8))) >>> 8) % 256

/-- One call of `show()` as a step on the object: the data members after the
call and the buffer handed to the transport.  `show` assigns to no data
member; the pixel it shifts is the local copy `uint32_t pixel = pixelData[i]`. -/
def showCall (fuel : Nat) (s : OdePixels) : Run (OdePixels × List (Option Nat)) := do
  let data ← showPixels fuel s
  .ok (s, data)

/-- Embeds `init()` from the point where the pixel buffer exists and the bus
is set up: `clear(); show(); return true;`.  The result is the store after the
call and the frame it transmitted. -/
def init (fuel : Nat) (s : OdePixels) : Run (OdePixels × List (Option Nat)) := do
  let s1 ← clear s
  showCall fuel s1

/-! ## Small evaluations of the embedding -/

example : rgb2u32 255 0 0 = 0x00FF00 := by decide
example : hsv2u32 0 0 255 = 0xFEFFFE := by decide
example : showPixels 5 ⟨1, [0x800001]⟩ =
    .ok ((0 :: 248 :: (List.replicate 22 224 ++ [248])).map some) := by decide
example : fill ⟨4, [1, 2, 3, 4]⟩ 9 1 2 = .ok ⟨4, [1, 9, 9, 4]⟩ := by decide
example : fill ⟨4, [1, 2, 3, 4]⟩ 9 1 (2 ^ 32 - 1) = .ok ⟨4, [1, 2, 3, 4]⟩ := by decide
example : setPixelColor ⟨2, [1, 2]⟩ 2 7 = .ok (⟨2, [1, 2]⟩, some 2) := by decide

/-! ## Runs that produce a result -/

theorem bind_ok_inv {α β : Type} {x : Run α} {f : α → Run β} {y : β}
    (h : (x >>= f) = .ok y) : ∃ a, x = .ok a ∧ f a = .ok y := by
  cases x with
  | error e => cases h
  | ok a => exact ⟨a, rfl, h⟩

theorem peek_ok (d : List Nat) (i : Nat) (h : i < d.length) : peek d i = .ok (d.getD i 0) := by
  simp [peek, List.getElem?_eq_getElem h, List.getD_eq_getElem _ _ h]

theorem poke_ok (d : List Nat) (i v : Nat) (h : i < d.length) : poke d i v = .ok (d.set i v) := by
  simp [poke, h]

theorem put_ok (b : TxBuf) (v : Nat) (h : b.p < b.data.length) :
    b.put v = .ok { data := b.data.set b.p (some v), p := b.p + 1 } := by
  simp [TxBuf.put, h]

theorem put_full (b : TxBuf) (v : Nat) (h : b.data.length ≤ b.p) :
    b.put v = .error .outOfBounds := by
  simp [TxBuf.put, Nat.not_lt.mpr h]

/-! ## The waveform encoder -/

theorem and_bit23 (x : Nat) : (x &&& 0x800000 ≠ 0) ↔ x.testBit 23 = true := by
  have h : (0x800000 : Nat) = 2 ^ 23 := by norm_num
  rw [h, Nat.and_two_pow]
  cases x.testBit 23 <;> simp

theorem symbol_bit23 (x : Nat) :
    (if x &&& 0x800000 ≠ 0 then WS2812_H else WS2812_L) = symbolOf (x.testBit 23) := by
  have := and_bit23 x
  by_cases hbit : x.testBit 23 = true
  · simp [symbolOf, hbit, this.2 hbit]
  · have h0 : x &&& 0x800000 = 0 := by
      by_contra hne
      exact hbit (this.1 hne)
    simp [symbolOf, hbit, h0]

theorem shl1_testBit (pixel j : Nat) :
    (decide (j ≤ 23) && ((pixel <<< 1) % 2 ^ 32).testBit (23 - j)) =
      (decide (j + 1 ≤ 23) && pixel.testBit (23 - (j + 1))) := by
  rw [Nat.testBit_mod_two_pow, Nat.testBit_shiftLeft]
  by_cases h : j + 1 ≤ 23
  · have h1 : j ≤ 23 := by omega
    have h2 : 23 - j < 32 := by omega
    have h3 : 23 - j ≥ 1 := by omega
    have h4 : 23 - j - 1 = 23 - (j + 1) := by omega
    simp [h, h1, h2, h3, h4]
  · have h3 : ¬ 23 - j ≥ 1 := by omega
    simp [h, h3]

/-- The inner loop with room for its `k` bytes: it writes, at offsets
`p .. p+k-1`, the symbols of bits `23, 22, ...` of `pixel` (zero bits once the
24 bits are used up) and touches nothing else. -/
theorem showBits_spec (k : Nat) : ∀ (pixel : Nat) (b : TxBuf), b.p + k ≤ b.data.length →
    ∃ b', showBits k pixel b = .ok b' ∧ b'.p = b.p + k ∧ b'.data.length = b.data.length ∧
      (∀ m, m < b.p ∨ b.p + k ≤ m → b'.data[m]? = b.data[m]?) ∧
      (∀ j, j < k → b'.data[b.p + j]? =
        some (some (symbolOf (decide (j ≤ 23) && pixel.testBit (23 - j))))) := by
  induction k with
  | zero =>
    intro pixel b _
    exact ⟨b, rfl, rfl, rfl, fun _ _ => rfl, fun j hj => absurd hj (Nat.not_lt_zero j)⟩
  | succ k ih =>
    intro pixel b hb
    have hp : b.p < b.data.length := by omega
    obtain ⟨b', hrun, hp', hlen, hout, hin⟩ :=
      ih ((pixel <<< 1) % 2 ^ 32)
        { data := b.data.set b.p (some (symbolOf (pixel.testBit 23))), p := b.p + 1 }
        (by simp; omega)
    simp only [List.length_set] at hp' hlen hout hin
    refine ⟨b', ?_, by omega, hlen, ?_, ?_⟩
    · simp only [showBits, symbol_bit23, put_ok b _ hp]
      exact hrun
    · intro m hm
      rw [hout m (by omega), List.getElem?_set_ne (by omega)]
    · intro j hj
      cases j with
      | zero =>
        rw [Nat.add_zero, hout b.p (by omega), List.getElem?_set_self hp]
        simp
      | succ j =>
        rw [show b.p + (j + 1) = b.p + 1 + j by omega, hin j (by omega), shl1_testBit]

/-- The inner loop on a full buffer: the first store is out of bounds. -/
theorem showBits_full (k pixel : Nat) (b : TxBuf) (h : b.data.length ≤ b.p) :
    showBits (k + 1) pixel b = .error .outOfBounds := by
  simp only [showBits, put_full b _ h]
  rfl

/-- The outer loop for `n` rounds in which the counter does not pass `255`:
the run continues from counter `(i + n) % 256` with `24 * n` more bytes
written, the symbols of pixels `i .. i+n-1`. -/
theorem showLoop_steps (s : OdePixels) (n : Nat) :
    ∀ (i : Nat) (b : TxBuf) (fuel : Nat), i < 256 → i + n ≤ 256 → i + n ≤ s.pixelCount →
      i + n ≤ s.pixelData.length → b.p + 24 * n ≤ b.data.length →
      ∃ b', showLoop s (fuel + n) i b = showLoop s fuel ((i + n) % 256) b' ∧
        b'.p = b.p + 24 * n ∧ b'.data.length = b.data.length ∧
        (∀ m, m < b.p → b'.data[m]? = b.data[m]?) ∧
        (∀ k j, k < n → j < 24 → b'.data[b.p + 24 * k + j]? =
          some (some (symbolOf ((s.pixelData.getD (i + k) 0).testBit (23 - j))))) := by
  induction n with
  | zero =>
    intro i b fuel hi _ _ _ _
    refine ⟨b, ?_, rfl, rfl, fun _ _ => rfl, ?_⟩
    · rw [Nat.add_zero, Nat.add_zero, Nat.mod_eq_of_lt hi]
    · intro k j hk
      omega
  | succ n ih =>
    intro i b fuel hi h256 hcount hlen hroom
    have hic : i < s.pixelCount := by omega
    obtain ⟨b1, hrun1, hp1, hlen1, hout1, hin1⟩ :=
      showBits_spec 24 (s.pixelData.getD i 0) b (by omega)
    have hunfold : showLoop s (fuel + (n + 1)) i b = showLoop s (fuel + n) ((i + 1) % 256) b1 := by
      rw [show fuel + (n + 1) = (fuel + n) + 1 by omega]
      simp only [showLoop, if_pos hic, peek_ok _ _ (show i < s.pixelData.length by omega)]
      show (showBits 24 _ b >>= fun b' => showLoop s (fuel + n) ((i + 1) % 256) b') = _
      rw [hrun1]
      rfl
    by_cases hw : i + 1 < 256
    · have hmod : (i + 1) % 256 = i + 1 := Nat.mod_eq_of_lt hw
      obtain ⟨b', hrun, hp', hlen', hout, hin⟩ :=
        ih (i + 1) b1 fuel hw (by omega) (by omega) (by omega) (by omega)
      refine ⟨b', ?_, by omega, by omega, ?_, ?_⟩
      · rw [hunfold, hmod, hrun, show i + 1 + n = i + (n + 1) by omega]
      · intro m hm
        rw [hout m (by omega), hout1 m (by omega)]
      · intro k j hk hj
        cases k with
        | zero =>
          rw [hout _ (by omega), Nat.mul_zero, Nat.add_zero, hin1 j hj]
          simp [show j ≤ 23 by omega]
        | succ k =>
          have := hin k j (by omega) hj
          rw [show b.p + 24 * (k + 1) + j = b1.p + 24 * k + j by omega, this,
            show i + 1 + k = i + (k + 1) by omega]
    · obtain rfl : n = 0 := by omega
      refine ⟨b1, ?_, by omega, hlen1, ?_, ?_⟩
      · rw [hunfold]
        rfl
      · intro m hm
        exact hout1 m (by omega)
      · intro k j hk hj
        obtain rfl : k = 0 := by omega
        rw [Nat.mul_zero, Nat.add_zero, hin1 j hj]
        simp [show j ≤ 23 by omega]

/-- The frame `show` builds for a store of at most 255 pixels, given fuel for
its `pixelCount + 1` tests of the loop condition. -/
theorem showPixels_spec (s : OdePixels) (hc : s.pixelCount ≤ 255)
    (hlen : s.pixelData.length = s.pixelCount) (fuel : Nat) (hf : s.pixelCount < fuel) :
    ∃ data, showPixels fuel s = .ok data ∧ data.length = s.pixelCount * 24 + 1 ∧
      data[0]? = some (some WS2812_RESET) ∧
      ∀ i j, i < s.pixelCount → j < 24 → data[1 + 24 * i + j]? =
        some (some (symbolOf ((s.pixelData.getD i 0).testBit (23 - j)))) := by
  have hcap : (s.pixelCount * 24 + 1) % 2 ^ 32 = s.pixelCount * 24 + 1 :=
    Nat.mod_eq_of_lt (by omega)
  obtain ⟨f, rfl⟩ : ∃ f, fuel = (f + 1) + s.pixelCount := ⟨fuel - s.pixelCount - 1, by omega⟩
  obtain ⟨b', hrun, hp', hlen', hout, hin⟩ :=
    showLoop_steps s s.pixelCount 0
      { data := (List.replicate (s.pixelCount * 24 + 1) none).set 0 (some WS2812_RESET), p := 1 }
      (f + 1) (by omega) (by omega) (by omega) (by omega) (by simp; omega)
  have hexit : showLoop s (f + 1) ((0 + s.pixelCount) % 256) b' = .ok b' := by
    rw [Nat.zero_add, Nat.mod_eq_of_lt (by omega)]
    simp [showLoop]
  refine ⟨b'.data, ?_, ?_, ?_, ?_⟩
  · simp only [showPixels, hcap]
    rw [put_ok _ _ (by simp)]
    show (showLoop s (f + 1 + s.pixelCount) 0 _ >>= fun b => Except.ok b.data) = _
    rw [hrun, hexit]
    rfl
  · rw [hlen']; simp
  · rw [hout 0 (by simp)]
    simp [List.replicate_succ]
  · intro i j hi hj
    have := hin i j hi hj
    simpa using this

/-- The outer loop of `show` never leaves through its exit when the store
has more than 255 pixels: the 8-bit counter stays below `pixelCount`. -/
theorem showLoop_no_exit (s : OdePixels) (hc : 256 ≤ s.pixelCount) (fuel : Nat) :
    ∀ (i : Nat) (b b' : TxBuf), i < 256 → showLoop s fuel i b ≠ .ok b' := by
  induction fuel with
  | zero =>
    intro i b b' _ h
    simp [showLoop] at h
  | succ f ih =>
    intro i b b' hi h
    simp only [showLoop, if_pos (show i < s.pixelCount by omega)] at h
    obtain ⟨pixel, _, h1⟩ := bind_ok_inv h
    obtain ⟨b1, _, h2⟩ := bind_ok_inv h1
    exact ih _ b1 b' (Nat.mod_lt _ (by norm_num)) h2

theorem showPixels_no_result (s : OdePixels) (hc : 256 ≤ s.pixelCount) (fuel : Nat)
    (data : List (Option Nat)) : showPixels fuel s ≠ .ok data := by
  intro h
  obtain ⟨b1, _, h2⟩ := bind_ok_inv h
  obtain ⟨b, hl, _⟩ := bind_ok_inv h2
  exact showLoop_no_exit s hc fuel 0 b1 b (by norm_num) hl

/-- A store of exactly 256 pixels: after 256 rounds the buffer is full, the
counter is back at `0 < 256`, and round 257 stores past the end of `data`. -/
theorem showPixels_256_fault (s : OdePixels) (hc : s.pixelCount = 256)
    (hlen : s.pixelData.length = 256) (fuel : Nat) (hf : 256 < fuel) :
    showPixels fuel s = .error .outOfBounds := by
  have hcap : (s.pixelCount * 24 + 1) % 2 ^ 32 = s.pixelCount * 24 + 1 :=
    Nat.mod_eq_of_lt (by omega)
  obtain ⟨f, rfl⟩ : ∃ f, fuel = (f + 1) + 256 := ⟨fuel - 257, by omega⟩
  obtain ⟨b', hrun, hp', hlen', -, -⟩ :=
    showLoop_steps s 256 0
      { data := (List.replicate (s.pixelCount * 24 + 1) none).set 0 (some WS2812_RESET), p := 1 }
      (f + 1) (by omega) (by omega) (by omega) (by omega)
      (by simp only [List.length_set, List.length_replicate]; omega)
  simp only [List.length_set, List.length_replicate] at hp' hlen'
  have hnext : showLoop s (f + 1) ((0 + 256) % 256) b' = .error .outOfBounds := by
    simp only [showLoop, Nat.zero_add, Nat.mod_self, if_pos (show 0 < s.pixelCount by omega),
      peek_ok _ _ (show 0 < s.pixelData.length by omega)]
    show (showBits 24 _ b' >>= fun b1 => showLoop s f ((0 + 1) % 256) b1) = _
    rw [showBits_full 23 _ b' (by omega)]
    rfl
  simp only [showPixels, hcap]
  rw [put_ok _ _ (by simp only [List.length_replicate]; omega)]
  show (showLoop s (f + 1 + 256) 0 _ >>= fun b => Except.ok b.data) = _
  rw [hrun, hnext]
  rfl


/-! ## Colour packing -/

/-- The packed colour as a number: with byte-sized channels no shift of
`rgb2u32` leaves `uint32_t` and the three fields do not overlap. -/
theorem rgb2u32_eq (r g b : Nat) (hr : r < 256) (hg : g < 256) (hb : b < 256) :
    rgb2u32 r g b = g * 65536 + r * 256 + b := by
  have h1 : (g <<< 16) % 2 ^ 32 = 2 ^ 16 * g := by
    rw [Nat.shiftLeft_eq, Nat.mod_eq_of_lt (by omega)]
    omega
  have h2 : (r <<< 8) % 2 ^ 32 = 2 ^ 8 * r := by
    rw [Nat.shiftLeft_eq, Nat.mod_eq_of_lt (by omega)]
    omega
  have h3 : 2 ^ 16 * g ||| 2 ^ 8 * r = 2 ^ 8 * (2 ^ 8 * g + r) := by
    rw [← Nat.mul_add_lt_is_or (show 2 ^ 8 * r < 2 ^ 16 by omega) g]
    omega
  unfold rgb2u32
  rw [h1, h2, h3, ← Nat.mul_add_lt_is_or (show b < 2 ^ 8 by omega)]
  omega

/-- The packed colour written with unbounded shifts, as the layout
`(g<<16)|(r<<8)|b` reads. -/
theorem rgb2u32_layout (r g b : Nat) (hr : r < 256) (hg : g < 256) :
    rgb2u32 r g b = (g <<< 16) ||| (r <<< 8) ||| b := by
  unfold rgb2u32
  rw [Nat.mod_eq_of_lt (by rw [Nat.shiftLeft_eq]; omega),
    Nat.mod_eq_of_lt (by rw [Nat.shiftLeft_eq]; omega)]

/-! ## Writes into the pixel store -/

theorem setPixelColor_ok (s : OdePixels) (n color : Nat) (hn : n < s.pixelCount)
    (hlen : s.pixelData.length = s.pixelCount) :
    setPixelColor s n color = .ok ({ s with pixelData := s.pixelData.set n color }, none) := by
  unfold setPixelColor
  rw [if_neg (by omega), poke_ok _ _ _ (by omega)]
  rfl

/-- The fill loop with its `k` slots inside the buffer: slots `i .. i+k-1`
become `color`, every other slot keeps its word. -/
theorem fillLoop_spec (color : Nat) (k : Nat) : ∀ (i : Nat) (d : List Nat),
    (k ≠ 0 → i + k ≤ d.length) →
    ∃ d', fillLoop color k i d = .ok d' ∧ d'.length = d.length ∧
      ∀ m, d'[m]? = if i ≤ m ∧ m < i + k then some color else d[m]? := by
  induction k with
  | zero =>
    intro i d _
    refine ⟨d, rfl, rfl, fun m => ?_⟩
    rw [if_neg (by omega)]
  | succ k ih =>
    intro i d h
    have hi : i < d.length := by have := h (Nat.succ_ne_zero k); omega
    obtain ⟨d', hrun, hlen, hget⟩ := ih (i + 1) (d.set i color)
      (fun _ => by have := h (Nat.succ_ne_zero k); simp; omega)
    refine ⟨d', ?_, by simpa using hlen, fun m => ?_⟩
    · simp only [fillLoop, poke_ok _ _ _ hi]
      exact hrun
    · rw [hget m]
      by_cases hm : m = i
      · subst hm
        rw [if_neg (by omega), if_pos (by omega), List.getElem?_set_self hi]
      · rw [List.getElem?_set_ne (Ne.symm hm)]
        by_cases h2 : i + 1 ≤ m ∧ m < i + 1 + k
        · rw [if_pos h2, if_pos (by omega)]
        · rw [if_neg h2, if_neg (by omega)]

theorem fillStop_le (s : OdePixels) (first count : Nat) :
    fillStop s first count ≤ s.pixelCount := by
  unfold fillStop
  split <;> omega

/-- What `fill` does on a well-formed store, for all arguments: it returns,
the slots `first ≤ i < end` hold `color` and all others are unchanged. -/
theorem fill_spec (s : OdePixels) (hlen : s.pixelData.length = s.pixelCount)
    (color first count : Nat) :
    ∃ s', fill s color first count = .ok s' ∧ s'.pixelCount = s.pixelCount ∧
      s'.pixelData.length = s.pixelData.length ∧
      ∀ i, s'.pixelData[i]? =
        if first ≤ i ∧ i < fillStop s first count then some color else s.pixelData[i]? := by
  have hstop := fillStop_le s first count
  obtain ⟨d', hrun, hlen', hget⟩ :=
    fillLoop_spec color (fillStop s first count - first) first s.pixelData (by omega)
  refine ⟨{ s with pixelData := d' }, ?_, rfl, hlen', fun i => ?_⟩
  · have hdef : fill s color first count =
        (fillLoop color (fillStop s first count - first) first s.pixelData >>=
          fun d => (Except.ok { s with pixelData := d } : Run OdePixels)) := rfl
    rw [hdef, hrun]
    rfl
  · show d'[i]? = _
    rw [hget i]
    by_cases h : first ≤ i ∧ i < fillStop s first count
    · rw [if_pos h, if_pos (by omega)]
    · rw [if_neg h, if_neg (by omega)]


/-- The red channel of a packed colour: bits 15..8. -/
theorem rgb2u32_red (r g b : Nat) (hr : r < 256) (hg : g < 256) (hb : b < 256) :
    (rgb2u32 r g b >>> 8) % 256 = r := by
  rw [rgb2u32_eq r g b hr hg hb, Nat.shiftRight_eq_div_pow]
  omega

/-- The green channel of a packed colour: bits 23..16. -/
theorem rgb2u32_green (r g b : Nat) (hr : r < 256) (hg : g < 256) (hb : b < 256) :
    (rgb2u32 r g b >>> 16) % 256 = g := by
  rw [rgb2u32_eq r g b hr hg hb, Nat.shiftRight_eq_div_pow]
  omega

/-- The blue channel of a packed colour: bits 7..0. -/
theorem rgb2u32_blue (r g b : Nat) (hr : r < 256) (hg : g < 256) (hb : b < 256) :
    rgb2u32 r g b % 256 = b := by
  rw [rgb2u32_eq r g b hr hg hb]
  omega

/-! ## The HSV conversion -/

/-- The result of `hsv2u32` in terms of its named locals. -/
theorem hsv2u32_eq (hue sat val : Nat) :
    hsv2u32 hue sat val =
      (match hsvRegion hue with
        | 0 => rgb2u32 val (hsvT hue sat val) (hsvP sat val)
        | 1 => rgb2u32 (hsvQ hue sat val) val (hsvP sat val)
        | 2 => rgb2u32 (hsvP sat val) val (hsvT hue sat val)
        | 3 => rgb2u32 (hsvP sat val) (hsvQ hue sat val) val
        | 4 => rgb2u32 (hsvT hue sat val) (hsvP sat val) val
        | _ => rgb2u32 val (hsvP sat val) (hsvQ hue sat val)) := rfl

theorem scale_le (v x : Nat) (hx : x ≤ 255) : (v * x) >>> 8 ≤ v := by
  rw [Nat.shiftRight_eq_div_pow]
  have : v * x ≤ v * 255 := Nat.mul_le_mul_left v hx
  omega

theorem scale_mono (v x y : Nat) (h : x ≤ y) : (v * x) >>> 8 ≤ (v * y) >>> 8 := by
  simp only [Nat.shiftRight_eq_div_pow]
  exact Nat.div_le_div_right (Nat.mul_le_mul_left v h)

theorem hsvRemainder_le (hue : Nat) : hsvRemainder hue ≤ 255 := by
  unfold hsvRemainder
  omega

/-- No truncation in `p`. -/
theorem hsvP_eq (sat val : Nat) (hv : val < 256) :
    hsvP sat val = (val * (255 - sat)) >>> 8 := by
  have := scale_le val (255 - sat) (by omega)
  unfold hsvP
  omega

/-- No truncation in `q`. -/
theorem hsvQ_eq (hue sat val : Nat) (hv : val < 256) :
    hsvQ hue sat val = (val * (255 - ((sat * hsvRemainder hue) >>> 8))) >>> 8 := by
  have := scale_le val (255 - ((sat * hsvRemainder hue) >>> 8)) (by omega)
  unfold hsvQ
  omega

/-- No truncation in `t`. -/
theorem hsvT_eq (hue sat val : Nat) (hv : val < 256) :
    hsvT hue sat val = (val * (255 - ((sat * (255 - hsvRemainder hue)) >>> 8))) >>> 8 := by
  have := scale_le val (255 - ((sat * (255 - hsvRemainder hue)) >>> 8)) (by omega)
  unfold hsvT
  omega

/-- The order of the intermediates: `p ≤ q ≤ val` and `p ≤ t ≤ val`. -/
theorem hsv_order (hue sat val : Nat) (hv : val < 256) :
    hsvP sat val ≤ hsvQ hue sat val ∧ hsvQ hue sat val ≤ val ∧
    hsvP sat val ≤ hsvT hue sat val ∧ hsvT hue sat val ≤ val := by
  rw [hsvP_eq sat val hv, hsvQ_eq hue sat val hv, hsvT_eq hue sat val hv]
  have hr := hsvRemainder_le hue
  have ha := scale_le sat (hsvRemainder hue) hr
  have hb := scale_le sat (255 - hsvRemainder hue) (by omega)
  exact ⟨scale_mono val _ _ (by omega), scale_le val _ (by omega),
    scale_mono val _ _ (by omega), scale_le val _ (by omega)⟩

/-- What `fill` does on a store whose buffer has at least `pixelCount`
words, for all arguments: it returns, the slots `first ≤ i < end` hold
`color`, and all others, the words behind the store included, are unchanged. -/
theorem fill_spec_le (s : OdePixels) (hlen : s.pixelCount ≤ s.pixelData.length)
    (color first count : Nat) :
    ∃ s', fill s color first count = .ok s' ∧ s'.pixelCount = s.pixelCount ∧
      s'.pixelData.length = s.pixelData.length ∧
      ∀ i, s'.pixelData[i]? =
        if first ≤ i ∧ i < fillStop s first count then some color else s.pixelData[i]? := by
  have hstop := fillStop_le s first count
  obtain ⟨d', hrun, hlen', hget⟩ :=
    fillLoop_spec color (fillStop s first count - first) first s.pixelData (by omega)
  refine ⟨{ s with pixelData := d' }, ?_, rfl, hlen', fun i => ?_⟩
  · have hdef : fill s color first count =
        (fillLoop color (fillStop s first count - first) first s.pixelData >>=
          fun d => (Except.ok { s with pixelData := d } : Run OdePixels)) := rfl
    rw [hdef, hrun]
    rfl
  · show d'[i]? = _
    rw [hget i]
    by_cases h : first ≤ i ∧ i < fillStop s first count
    · rw [if_pos h, if_pos (by omega)]
    · rw [if_neg h, if_neg (by omega)]

/-- A run of the fill loop that returns has stored inside the buffer only. -/
theorem fillLoop_inside (color : Nat) (k : Nat) : ∀ (i : Nat) (d d' : List Nat),
    fillLoop color k i d = .ok d' → k ≠ 0 → i + k ≤ d.length := by
  induction k with
  | zero =>
    intro i d d' _ h
    exact absurd rfl h
  | succ k ih =>
    intro i d d' hrun _
    obtain ⟨d1, hpoke, hrest⟩ := bind_ok_inv hrun
    have hi : i < d.length := by
      by_contra hn
      simp [poke, hn] at hpoke
    rw [poke_ok d i color hi] at hpoke
    cases hpoke
    by_cases hk : k = 0
    · omega
    · have := ih (i + 1) _ d' hrest hk
      simp only [List.length_set] at this
      omega

/-- The store `clear` returns: `pixelCount` zeros. -/
theorem clear_spec (s : OdePixels) (hlen : s.pixelData.length = s.pixelCount) :
    clear s = .ok ⟨s.pixelCount, List.replicate s.pixelCount 0⟩ := by
  obtain ⟨d', hrun, hlen', hget⟩ :=
    fillLoop_spec 0 (s.pixelCount - 0) 0 s.pixelData (by omega)
  have hdata : d' = List.replicate s.pixelCount 0 := by
    apply List.ext_getElem?
    intro i
    rw [hget i, List.getElem?_replicate]
    by_cases hi : i < s.pixelCount
    · rw [if_pos (by omega), if_pos hi]
    · rw [if_neg (by omega), if_neg hi, List.getElem?_eq_none (by omega)]
  have hdef : clear s = (fillLoop 0 (s.pixelCount - 0) 0 s.pixelData >>=
      fun d => (Except.ok { s with pixelData := d } : Run OdePixels)) := rfl
  rw [hdef, hrun, hdata]
  rfl

/-! ## Whole frames -/

/-- A frame is determined by its marker byte and its 24 bytes per pixel. -/
theorem frame_ext {α : Type} (n : Nat) (d1 d2 : List α) (h1 : d1.length = n * 24 + 1)
    (h2 : d2.length = n * 24 + 1) (h0 : d1[0]? = d2[0]?)
    (h : ∀ i j, i < n → j < 24 → d1[1 + 24 * i + j]? = d2[1 + 24 * i + j]?) : d1 = d2 := by
  apply List.ext_getElem?
  intro m
  by_cases hm : m < n * 24 + 1
  · by_cases hz : m = 0
    · rw [hz]
      exact h0
    · have := h ((m - 1) / 24) ((m - 1) % 24) (by omega) (by omega)
      rwa [show 1 + 24 * ((m - 1) / 24) + (m - 1) % 24 = m by omega] at this
  · rw [List.getElem?_eq_none (by omega), List.getElem?_eq_none (by omega)]

/-- Two runs of the outer loop from the same state that both return, return
the same buffer, whatever their step budgets. -/
theorem showLoop_fuel_irrelevant (s : OdePixels) (f1 : Nat) :
    ∀ (f2 i : Nat) (b b1 b2 : TxBuf),
      showLoop s f1 i b = .ok b1 → showLoop s f2 i b = .ok b2 → b1 = b2 := by
  induction f1 with
  | zero =>
    intro f2 i b b1 b2 h1 _
    simp [showLoop] at h1
  | succ f1 ih =>
    intro f2 i b b1 b2 h1 h2
    cases f2 with
    | zero => simp [showLoop] at h2
    | succ f2 =>
      by_cases hi : i < s.pixelCount
      · simp only [showLoop, if_pos hi] at h1 h2
        obtain ⟨px1, hpk1, h1⟩ := bind_ok_inv h1
        obtain ⟨px2, hpk2, h2⟩ := bind_ok_inv h2
        obtain rfl : px1 = px2 := by
          rw [hpk1] at hpk2
          cases hpk2
          rfl
        obtain ⟨c1, hb1, h1⟩ := bind_ok_inv h1
        obtain ⟨c2, hb2, h2⟩ := bind_ok_inv h2
        obtain rfl : c1 = c2 := by
          rw [hb1] at hb2
          cases hb2
          rfl
        exact ih f2 _ c1 b1 b2 h1 h2
      · simp only [showLoop, if_neg hi] at h1 h2
        cases h1
        cases h2
        rfl

/-- Two calls of `show` on the same store that both return, return the same
buffer, whatever their step budgets. -/
theorem showPixels_fuel_irrelevant (s : OdePixels) (f1 f2 : Nat) (d1 d2 : List (Option Nat))
    (h1 : showPixels f1 s = .ok d1) (h2 : showPixels f2 s = .ok d2) : d1 = d2 := by
  obtain ⟨a1, hp1, h1⟩ := bind_ok_inv h1
  obtain ⟨a2, hp2, h2⟩ := bind_ok_inv h2
  obtain rfl : a1 = a2 := by
    rw [hp1] at hp2
    cases hp2
    rfl
  obtain ⟨c1, hl1, h1⟩ := bind_ok_inv h1
  obtain ⟨c2, hl2, h2⟩ := bind_ok_inv h2
  have := showLoop_fuel_irrelevant s f1 f2 0 a1 c1 c2 hl1 hl2
  subst this
  cases h1
  cases h2
  rfl

theorem symbolOf_inj (a b : Bool) (h : symbolOf a = symbolOf b) : a = b := by
  cases a <;> cases b <;> first | rfl | (exact absurd h (by decide))

/-- Agreement on bits 23..0, bit by bit in the order `show` sends them. -/
theorem low24_iff (a b : Nat) :
    a % 2 ^ 24 = b % 2 ^ 24 ↔ ∀ j, j < 24 → a.testBit (23 - j) = b.testBit (23 - j) := by
  constructor
  · intro h j hj
    have ha := Nat.testBit_mod_two_pow a 24 (23 - j)
    have hb := Nat.testBit_mod_two_pow b 24 (23 - j)
    rw [h] at ha
    rw [ha] at hb
    simpa [show 23 - j < 24 by omega] using hb
  · intro h
    apply Nat.eq_of_testBit_eq
    intro k
    rw [Nat.testBit_mod_two_pow, Nat.testBit_mod_two_pow]
    by_cases hk : k < 24
    · have := h (23 - k) (by omega)
      rw [show 23 - (23 - k) = k by omega] at this
      rw [this]
    · simp [hk]

/-- Frames of two stores of the same size, at most 255 pixels: they are equal
exactly when the pixels agree on bits 23..0. -/
theorem showPixels_eq_iff (s1 s2 : OdePixels) (hc : s1.pixelCount ≤ 255)
    (hlen1 : s1.pixelData.length = s1.pixelCount) (hlen2 : s2.pixelData.length = s2.pixelCount)
    (hcount : s1.pixelCount = s2.pixelCount) (fuel : Nat) (hf : s1.pixelCount < fuel) :
    showPixels fuel s1 = showPixels fuel s2 ↔
      ∀ i, i < s1.pixelCount →
        s1.pixelData.getD i 0 % 2 ^ 24 = s2.pixelData.getD i 0 % 2 ^ 24 := by
  obtain ⟨d1, hrun1, hl1, hz1, hs1⟩ := showPixels_spec s1 hc hlen1 fuel hf
  obtain ⟨d2, hrun2, hl2, hz2, hs2⟩ :=
    showPixels_spec s2 (by omega) hlen2 fuel (by omega)
  rw [hrun1, hrun2]
  constructor
  · intro h i hi
    have hd : d1 = d2 := by
      cases h
      rfl
    rw [low24_iff]
    intro j hj
    have e1 := hs1 i j hi hj
    have e2 := hs2 i j (by omega) hj
    rw [hd, e2] at e1
    simp only [Option.some.injEq] at e1
    exact (symbolOf_inj _ _ e1).symm
  · intro h
    have hd : d1 = d2 := by
      apply frame_ext s1.pixelCount d1 d2 hl1 (by rw [hl2, hcount]) (by rw [hz1, hz2])
      intro i j hi hj
      rw [hs1 i j hi hj, hs2 i j (by omega) hj, (low24_iff _ _).1 (h i hi) j hj]
    rw [hd]

/-- The frame of a store of zeros, at most 255 of them: the marker byte and
`24 * pixelCount` low symbols. -/
theorem showPixels_zeros (n : Nat) (hn : n ≤ 255) (fuel : Nat) (hf : n < fuel) :
    showPixels fuel ⟨n, List.replicate n 0⟩ =
      .ok (some WS2812_RESET :: List.replicate (n * 24) (some WS2812_L)) := by
  obtain ⟨d, hrun, hl, hz, hs⟩ :=
    showPixels_spec ⟨n, List.replicate n 0⟩ hn (List.length_replicate n 0) fuel hf
  rw [hrun]
  congr 1
  apply frame_ext n _ _ hl (by simp) (by rw [hz, List.getElem?_cons_zero])
  intro i j hi hj
  rw [hs i j hi hj, show 1 + 24 * i + j = (24 * i + j) + 1 by omega, List.getElem?_cons_succ,
    List.getElem?_replicate, if_pos (by omega)]
  have hzero : (List.replicate n 0).getD i 0 = 0 := by
    rw [List.getD_eq_getElem?_getD, List.getElem?_replicate]
    split <;> rfl
  simp [hzero, symbolOf]

/-- A call of `show` returns exactly when `show` builds its buffer. -/
theorem showCall_eq (fuel : Nat) (s : OdePixels) :
    showCall fuel s = (showPixels fuel s >>=
      fun data => (Except.ok (s, data) : Run (OdePixels × List (Option Nat)))) := rfl

/-- After a `clear` that leaves `s1`, `init` is `show` on `s1`. -/
theorem init_of_clear (s s1 : OdePixels) (fuel : Nat) (h : clear s = .ok s1) :
    init fuel s = (showPixels fuel s1 >>=
      fun data => (Except.ok (s1, data) : Run (OdePixels × List (Option Nat)))) := by
  have hdef : init fuel s = (clear s >>= fun t => showCall fuel t) := rfl
  rw [hdef, h]
  rfl

/-- The end of `init` on a well-formed store of at most 255 pixels: the store
is `pixelCount` zeros and the frame transmitted is the all-off frame. -/
theorem init_all_off (s : OdePixels) (hlen : s.pixelData.length = s.pixelCount)
    (hc : s.pixelCount ≤ 255) (fuel : Nat) (hf : s.pixelCount < fuel) :
    init fuel s = .ok (⟨s.pixelCount, List.replicate s.pixelCount 0⟩,
      some WS2812_RESET :: List.replicate (s.pixelCount * 24) (some WS2812_L)) := by
  rw [init_of_clear s _ fuel (clear_spec s hlen), showPixels_zeros s.pixelCount hc fuel hf]
  rfl

/-! ## The claims -/

/-- C1, at a store the claim covers and the code does not: with 256 pixels
`show` builds no buffer at all. Whatever the step budget, the run never
returns one, and from 257 tests of the loop condition on it stores past
the last of its `256*24+1` bytes, the 8-bit counter having wrapped to 0. -/
theorem show_256_pixels_builds_no_buffer :
    (∀ fuel data, showPixels fuel ⟨256, List.replicate 256 0⟩ ≠ .ok data) ∧
    (∀ f, showPixels (f + 257) ⟨256, List.replicate 256 0⟩ = .error .outOfBounds) :=
  ⟨fun fuel data => showPixels_no_result _ (Nat.le_refl 256) fuel data,
   fun f => showPixels_256_fault _ rfl (List.length_replicate 256 0) (f + 257) (by omega)⟩

/-- C2: for channels in `[0,255]`, `rgb2u32 r g b` is `(g<<16)|(r<<8)|b`:
green is bits 23..16, red bits 15..8, blue bits 7..0, and no higher bit is
set. -/
theorem rgb2u32_packs_grb (r g b : Nat) (hr : r < 256) (hg : g < 256) (hb : b < 256) :
    rgb2u32 r g b = (g <<< 16) ||| (r <<< 8) ||| b ∧
    (rgb2u32 r g b >>> 16) % 256 = g ∧
    (rgb2u32 r g b >>> 8) % 256 = r ∧
    rgb2u32 r g b % 256 = b ∧
    rgb2u32 r g b < 2 ^ 24 := by
  refine ⟨rgb2u32_layout r g b hr hg, ?_⟩
  rw [rgb2u32_eq r g b hr hg hb]
  simp only [Nat.shiftRight_eq_div_pow]
  omega

theorem rgb2u32_packs_grb_witness :
    (18 < 256 ∧ 52 < 256 ∧ 86 < 256) ∧
    (rgb2u32 18 52 86 = (52 <<< 16) ||| (18 <<< 8) ||| 86 ∧
    (rgb2u32 18 52 86 >>> 16) % 256 = 52 ∧
    (rgb2u32 18 52 86 >>> 8) % 256 = 18 ∧
    rgb2u32 18 52 86 % 256 = 86 ∧
    rgb2u32 18 52 86 < 2 ^ 24) :=
  ⟨by decide, rgb2u32_packs_grb 18 52 86 (by decide) (by decide) (by decide)⟩

/-- C3: on a well-formed store, `setPixelColor i C` with `i < pixelCount`
returns without an error report, and `getPixelData()[i]` then reads exactly
`C`, whatever word `C` is. -/
theorem setPixelColor_roundtrip (s : OdePixels) (hwf : s.WF) (i C : Nat)
    (hi : i < s.pixelCount) :
    ∃ s', setPixelColor s i C = .ok (s', none) ∧ (getPixelData s')[i]? = some C := by
  refine ⟨_, setPixelColor_ok s i C hi hwf.2, ?_⟩
  show (s.pixelData.set i C)[i]? = some C
  rw [List.getElem?_set_self (by rw [hwf.2]; exact hi)]

theorem setPixelColor_roundtrip_witness :
    ∃ s', setPixelColor ⟨3, [1, 2, 3]⟩ 1 0xFFFFFFFF = .ok (s', none) ∧
      (getPixelData s')[1]? = some 0xFFFFFFFF :=
  setPixelColor_roundtrip ⟨3, [1, 2, 3]⟩ (by decide) 1 0xFFFFFFFF (by decide)

/-- C4: `setPixelColor n color` with `n ≥ pixelCount` returns, reports the
index `n`, and hands back the store it was given, every slot unchanged. -/
theorem setPixelColor_out_of_range (s : OdePixels) (n color : Nat)
    (hn : s.pixelCount ≤ n) : setPixelColor s n color = .ok (s, some n) := by
  unfold setPixelColor
  rw [if_pos hn]

theorem setPixelColor_out_of_range_witness :
    setPixelColor ⟨3, [1, 2, 3]⟩ 3 9 = .ok (⟨3, [1, 2, 3]⟩, some 3) :=
  setPixelColor_out_of_range ⟨3, [1, 2, 3]⟩ 3 9 (by decide)

/-- C5, at arguments whose `uint32_t` sum wraps: on a store of 10 pixels
`fill(7, 5, 4294967293)` changes no slot, although `count > 0` and the slots
`5 ≤ i < min (5 + 4294967293) 10` are the slots 5..9. -/
theorem fill_wrapped_sum_changes_nothing :
    fill ⟨10, List.replicate 10 0⟩ 7 5 4294967293 = .ok ⟨10, List.replicate 10 0⟩ ∧
    0 < 4294967293 ∧ 4294967293 < 2 ^ 32 ∧ 5 < min (5 + 4294967293) 10 := by
  decide

/-- C6: on a well-formed store `fill color first 0` returns a store of the
same size in which the slots `first .. pixelCount-1` hold `color` and the
slots `0 .. first-1` are unchanged; for `first < pixelCount` the first range
is not empty. -/
theorem fill_count_zero (s : OdePixels) (hwf : s.WF) (color first : Nat) :
    ∃ s', fill s color first 0 = .ok s' ∧ s'.pixelCount = s.pixelCount ∧
      s'.pixelData.length = s.pixelCount ∧
      (∀ i, first ≤ i → i < s.pixelCount → s'.pixelData[i]? = some color) ∧
      (∀ i, i < first → s'.pixelData[i]? = s.pixelData[i]?) := by
  obtain ⟨s', hrun, hcount, hlen, hget⟩ := fill_spec s hwf.2 color first 0
  have hstop : fillStop s first 0 = s.pixelCount := by simp [fillStop]
  refine ⟨s', hrun, hcount, by rw [hlen, hwf.2], fun i h1 h2 => ?_, fun i h1 => ?_⟩
  · rw [hget i, if_pos ⟨h1, by omega⟩]
  · rw [hget i, if_neg (by omega)]

theorem fill_count_zero_witness :
    ∃ s', fill ⟨4, [1, 2, 3, 4]⟩ 9 2 0 = .ok s' ∧ s'.pixelCount = 4 ∧
      s'.pixelData.length = 4 ∧
      (∀ i, 2 ≤ i → i < 4 → s'.pixelData[i]? = some 9) ∧
      (∀ i, i < 2 → s'.pixelData[i]? = [1, 2, 3, 4][i]?) :=
  fill_count_zero ⟨4, [1, 2, 3, 4]⟩ (by decide) 9 2

/-- C7: `fill color first count` with `first ≥ pixelCount` returns the store
it was given, for every `count`, zero or not. -/
theorem fill_first_beyond_store (s : OdePixels) (color first count : Nat)
    (h : s.pixelCount ≤ first) : fill s color first count = .ok s := by
  have hk : fillStop s first count - first = 0 := by
    have := fillStop_le s first count
    omega
  have hdef : fill s color first count =
      (fillLoop color (fillStop s first count - first) first s.pixelData >>=
        fun d => (Except.ok { s with pixelData := d } : Run OdePixels)) := rfl
  rw [hdef, hk]
  rfl

theorem fill_first_beyond_store_witness :
    fill ⟨4, [1, 2, 3, 4]⟩ 9 4 4294967295 = .ok ⟨4, [1, 2, 3, 4]⟩ :=
  fill_first_beyond_store ⟨4, [1, 2, 3, 4]⟩ 9 4 4294967295 (by decide)

/-- C8: on a well-formed store `clear` returns the store of `pixelCount`
zeros, and that is the result of `fill 0 0 0` on the same store. -/
theorem clear_eq_fill_zero (s : OdePixels) (hwf : s.WF) :
    clear s = .ok ⟨s.pixelCount, List.replicate s.pixelCount 0⟩ ∧
    fill s 0 0 0 = clear s := by
  have hsame : fill s 0 0 0 = clear s := by
    simp [fill, clear]
  refine ⟨?_, hsame⟩
  obtain ⟨s', hrun, hcount, hlen, hget⟩ := fill_spec s hwf.2 0 0 0
  rw [← hsame, hrun]
  have hstop : fillStop s 0 0 = s.pixelCount := by simp [fillStop]
  have hdata : s'.pixelData = List.replicate s.pixelCount 0 := by
    apply List.ext_getElem?
    intro i
    rw [hget i, hstop]
    by_cases hi : i < s.pixelCount
    · rw [if_pos ⟨Nat.zero_le i, hi⟩, List.getElem?_replicate, if_pos hi]
    · rw [if_neg (by omega), List.getElem?_replicate, if_neg hi,
        List.getElem?_eq_none (by rw [hwf.2]; omega)]
  cases s' with
  | mk c d =>
    simp only at hcount hdata
    rw [hcount, hdata]

theorem clear_eq_fill_zero_witness :
    clear ⟨3, [7, 8, 9]⟩ = .ok ⟨3, List.replicate 3 0⟩ ∧
    fill ⟨3, [7, 8, 9]⟩ 0 0 0 = clear ⟨3, [7, 8, 9]⟩ :=
  clear_eq_fill_zero ⟨3, [7, 8, 9]⟩ (by decide)

/-- C9: on a well-formed store the overload `setPixelColor(n, r, g, b)` with
`n < pixelCount` and byte-sized channels stores `(g<<16)|(r<<8)|b` in slot
`n`; and on any 3-pixel store, setting pixel 0 to (255,0,0), pixel 1 to
(0,255,0) and pixel 2 to (0,0,255) leaves `[0x00FF00, 0xFF0000, 0x0000FF]`. -/
theorem setPixelColorRGB_stores_grb (s : OdePixels) (hwf : s.WF) (n r g b : Nat)
    (hn : n < s.pixelCount) (hr : r < 256) (hg : g < 256) :
    (∃ s', setPixelColorRGB s n r g b = .ok (s', none) ∧
      (getPixelData s')[n]? = some ((g <<< 16) ||| (r <<< 8) ||| b)) ∧
    (∀ x y z : Nat,
      (do
        let r0 ← setPixelColorRGB ⟨3, [x, y, z]⟩ 0 255 0 0
        let r1 ← setPixelColorRGB r0.1 1 0 255 0
        let r2 ← setPixelColorRGB r1.1 2 0 0 255
        pure (getPixelData r2.1)) = (.ok [0x00FF00, 0xFF0000, 0x0000FF] : Run (List Nat))) := by
  constructor
  · refine ⟨_, setPixelColor_ok s n (rgb2u32 r g b) hn hwf.2, ?_⟩
    show (s.pixelData.set n (rgb2u32 r g b))[n]? = _
    rw [List.getElem?_set_self (by rw [hwf.2]; exact hn), rgb2u32_layout r g b hr hg]
  · intro x y z
    rfl

theorem setPixelColorRGB_stores_grb_witness :
    ∃ s', setPixelColorRGB ⟨3, [0, 0, 0]⟩ 1 18 52 86 = .ok (s', none) ∧
      (getPixelData s')[1]? = some ((52 <<< 16) ||| (18 <<< 8) ||| 86) :=
  (setPixelColorRGB_stores_grb ⟨3, [0, 0, 0]⟩ (by decide) 1 18 52 86
    (by decide) (by decide) (by decide)).1

/-- C10 fails at `hue = 0, val = 255`: `hsv2u32 0 0 255` packs the channels
`(255, 254, 254)`, not `(255, 255, 255)`. -/
theorem hsv2u32_sat_zero_not_gray : hsv2u32 0 0 255 ≠ rgb2u32 255 255 255 := by
  decide

/-- C10 as the code has it: at `sat = 0` the three intermediates of
`hsv2u32` are all `(val*255)>>8`, which is `val - 1` (and `0` for `val = 0`).
The channel that the sector sets to `val` is `val`, the other two are
`val - 1`; the result is the gray `rgb2u32 val val val` only for `val = 0`. -/
theorem hsv2u32_sat_zero (hue val : Nat) (hv : val < 256) :
    (val * 255) >>> 8 = val - 1 ∧
    hsv2u32 hue 0 val =
      (match (hue / 43) % 256 with
        | 0 => rgb2u32 val (val - 1) (val - 1)
        | 1 => rgb2u32 (val - 1) val (val - 1)
        | 2 => rgb2u32 (val - 1) val (val - 1)
        | 3 => rgb2u32 (val - 1) (val - 1) val
        | 4 => rgb2u32 (val - 1) (val - 1) val
        | _ => rgb2u32 val (val - 1) (val - 1)) ∧
    (hsv2u32 hue 0 val = rgb2u32 val val val ↔ val = 0) := by
  have hm : (val * 255) >>> 8 = val - 1 := by
    rw [Nat.shiftRight_eq_div_pow]
    omega
  have hm' : ((val * 255) >>> 8) % 256 = val - 1 := by
    rw [hm]
    omega
  have hform : hsv2u32 hue 0 val =
      (match (hue / 43) % 256 with
        | 0 => rgb2u32 val (val - 1) (val - 1)
        | 1 => rgb2u32 (val - 1) val (val - 1)
        | 2 => rgb2u32 (val - 1) val (val - 1)
        | 3 => rgb2u32 (val - 1) (val - 1) val
        | 4 => rgb2u32 (val - 1) (val - 1) val
        | _ => rgb2u32 val (val - 1) (val - 1)) := by
    simp only [hsv2u32, Nat.zero_mul, Nat.zero_shiftRight, Nat.sub_zero, hm']
  refine ⟨hm, hform, ?_⟩
  have hp : val - 1 < 256 := by omega
  rw [hform]
  constructor
  · intro h
    split at h <;>
      rw [rgb2u32_eq _ _ _ (by omega) (by omega) (by omega),
        rgb2u32_eq _ _ _ (by omega) (by omega) (by omega)] at h <;> omega
  · intro h
    subst h
    split <;> rfl

theorem hsv2u32_sat_zero_witness :
    (200 * 255) >>> 8 = 200 - 1 ∧
    hsv2u32 100 0 200 =
      (match (100 / 43) % 256 with
        | 0 => rgb2u32 200 (200 - 1) (200 - 1)
        | 1 => rgb2u32 (200 - 1) 200 (200 - 1)
        | 2 => rgb2u32 (200 - 1) 200 (200 - 1)
        | 3 => rgb2u32 (200 - 1) (200 - 1) 200
        | 4 => rgb2u32 (200 - 1) (200 - 1) 200
        | _ => rgb2u32 200 (200 - 1) (200 - 1)) ∧
    (hsv2u32 100 0 200 = rgb2u32 200 200 200 ↔ 200 = 0) :=
  hsv2u32_sat_zero 100 200 (by decide)

/-- C11: `hsv2u32 hue sat 0 = 0` for every hue and every saturation: the
intermediates `p`, `q`, `t` and so all three channels are 0. -/
theorem hsv2u32_val_zero (hue sat : Nat) :
    hsv2u32 hue sat 0 = 0 ∧ hsvP sat 0 = 0 ∧ hsvQ hue sat 0 = 0 ∧ hsvT hue sat 0 = 0 := by
  have hp : hsvP sat 0 = 0 := by simp [hsvP]
  have hq : hsvQ hue sat 0 = 0 := by simp [hsvQ]
  have ht : hsvT hue sat 0 = 0 := by simp [hsvT]
  refine ⟨?_, hp, hq, ht⟩
  rw [hsv2u32_eq, hp, hq, ht]
  split <;> rfl

/-- C12: the hues `43*k`, `k = 0..5`, have region `k` and remainder 0, and
`hsv2u32` there is sector `k`'s assignment with `q = (val*255)>>8`,
`t = (val*(255-((sat*255)>>8)))>>8` and `p = (val*(255-sat))>>8`; at
`hue = 43` that is `rgb2u32 q val p`, which at `sat = val = 255` differs from
sector 0's `rgb2u32 val t p`. -/
theorem hsv2u32_sector_boundaries (sat val : Nat) (hv : val < 256) :
    (∀ k, k ≤ 5 → hsvRegion (43 * k) = k ∧ hsvRemainder (43 * k) = 0) ∧
    hsv2u32 0 sat val = rgb2u32 val ((val * (255 - ((sat * 255) >>> 8))) >>> 8)
      ((val * (255 - sat)) >>> 8) ∧
    hsv2u32 43 sat val = rgb2u32 ((val * 255) >>> 8) val ((val * (255 - sat)) >>> 8) ∧
    hsv2u32 86 sat val = rgb2u32 ((val * (255 - sat)) >>> 8) val
      ((val * (255 - ((sat * 255) >>> 8))) >>> 8) ∧
    hsv2u32 129 sat val = rgb2u32 ((val * (255 - sat)) >>> 8) ((val * 255) >>> 8) val ∧
    hsv2u32 172 sat val = rgb2u32 ((val * (255 - ((sat * 255) >>> 8))) >>> 8)
      ((val * (255 - sat)) >>> 8) val ∧
    hsv2u32 215 sat val = rgb2u32 val ((val * (255 - sat)) >>> 8) ((val * 255) >>> 8) ∧
    hsv2u32 43 255 255 = rgb2u32 254 255 0 ∧
    rgb2u32 254 255 0 ≠ rgb2u32 255 ((255 * (255 - ((255 * 255) >>> 8))) >>> 8)
      ((255 * (255 - 255)) >>> 8) := by
  have hq : ∀ hue, hsvRemainder hue = 0 → hsvQ hue sat val = (val * 255) >>> 8 := by
    intro hue h
    rw [hsvQ_eq hue sat val hv, h]
    simp
  have ht : ∀ hue, hsvRemainder hue = 0 →
      hsvT hue sat val = (val * (255 - ((sat * 255) >>> 8))) >>> 8 := by
    intro hue h
    rw [hsvT_eq hue sat val hv, h]
  have hp := hsvP_eq sat val hv
  refine ⟨?_, ?_, ?_, ?_, ?_, ?_, ?_, by decide, by decide⟩
  · intro k hk
    interval_cases k <;> decide
  · rw [hsv2u32_eq, ht 0 (by decide), hp]
    rfl
  · rw [hsv2u32_eq, hq 43 (by decide), hp]
    rfl
  · rw [hsv2u32_eq, ht 86 (by decide), hp]
    rfl
  · rw [hsv2u32_eq, hq 129 (by decide), hp]
    rfl
  · rw [hsv2u32_eq, ht 172 (by decide), hp]
    rfl
  · rw [hsv2u32_eq, hq 215 (by decide), hp]
    rfl

theorem hsv2u32_sector_boundaries_witness :
    hsv2u32 43 128 200 = rgb2u32 ((200 * 255) >>> 8) 200 ((200 * (255 - 128)) >>> 8) :=
  (hsv2u32_sector_boundaries 128 200 (by decide)).2.2.1

/-- C16: when the 8-bit region index is not one of `0..4`, `hsv2u32` takes
the default branch: the result is `rgb2u32 val p q` with
`p = (val*(255-sat))>>8` and `q = (val*(255-((sat*remainder)>>8)))>>8`, both
untruncated; every hue in `215..360` has such a region index. -/
theorem hsv2u32_fallback_sector (hue sat val : Nat) (hv : val < 256)
    (hreg : 5 ≤ hsvRegion hue) :
    hsv2u32 hue sat val =
      rgb2u32 val ((val * (255 - sat)) >>> 8)
        ((val * (255 - ((sat * hsvRemainder hue) >>> 8))) >>> 8) ∧
    hsvRegion hue = (hue / 43) % 256 ∧
    hsvRemainder hue = ((hue - (hue / 43) % 256 * 43) * 6) % 256 ∧
    (∀ h, 215 ≤ h → h ≤ 360 → 5 ≤ hsvRegion h) := by
  refine ⟨?_, rfl, rfl, ?_⟩
  · rw [hsv2u32_eq, hsvP_eq sat val hv, hsvQ_eq hue sat val hv]
    split <;> omega
  · intro h h1 h2
    unfold hsvRegion
    omega

theorem hsv2u32_fallback_sector_witness :
    hsv2u32 300 128 200 =
      rgb2u32 200 ((200 * (255 - 128)) >>> 8)
        ((200 * (255 - ((128 * hsvRemainder 300) >>> 8))) >>> 8) :=
  (hsv2u32_fallback_sector 300 128 200 (by decide) (by decide)).1

/-- C19: for byte-sized `val` the channels packed by `hsv2u32`, read back
from the result, have maximum `val` and minimum `(val*(255-sat))>>8`; the
intermediates satisfy `p ≤ q ≤ val` and `p ≤ t ≤ val` and none of them is
truncated by its `uint8_t`. -/
theorem hsv2u32_channel_bounds (hue sat val : Nat) (hv : val < 256) :
    max ((hsv2u32 hue sat val >>> 8) % 256)
      (max ((hsv2u32 hue sat val >>> 16) % 256) (hsv2u32 hue sat val % 256)) = val ∧
    min ((hsv2u32 hue sat val >>> 8) % 256)
      (min ((hsv2u32 hue sat val >>> 16) % 256) (hsv2u32 hue sat val % 256)) =
        (val * (255 - sat)) >>> 8 ∧
    (hsvP sat val ≤ hsvQ hue sat val ∧ hsvQ hue sat val ≤ val ∧
      hsvP sat val ≤ hsvT hue sat val ∧ hsvT hue sat val ≤ val) ∧
    hsvP sat val = (val * (255 - sat)) >>> 8 ∧
    hsvQ hue sat val = (val * (255 - ((sat * hsvRemainder hue) >>> 8))) >>> 8 ∧
    hsvT hue sat val = (val * (255 - ((sat * (255 - hsvRemainder hue)) >>> 8))) >>> 8 := by
  have hord := hsv_order hue sat val hv
  have hp := hsvP_eq sat val hv
  refine ⟨?_, ?_, hord, hp, hsvQ_eq hue sat val hv, hsvT_eq hue sat val hv⟩
  · rw [hsv2u32_eq]
    split <;> rw [rgb2u32_red _ _ _ (by omega) (by omega) (by omega),
      rgb2u32_green _ _ _ (by omega) (by omega) (by omega),
      rgb2u32_blue _ _ _ (by omega) (by omega) (by omega)] <;> omega
  · rw [← hp, hsv2u32_eq]
    split <;> rw [rgb2u32_red _ _ _ (by omega) (by omega) (by omega),
      rgb2u32_green _ _ _ (by omega) (by omega) (by omega),
      rgb2u32_blue _ _ _ (by omega) (by omega) (by omega)] <;> omega

theorem hsv2u32_channel_bounds_witness :
    max ((hsv2u32 100 128 200 >>> 8) % 256)
      (max ((hsv2u32 100 128 200 >>> 16) % 256) (hsv2u32 100 128 200 % 256)) = 200 ∧
    min ((hsv2u32 100 128 200 >>> 8) % 256)
      (min ((hsv2u32 100 128 200 >>> 16) % 256) (hsv2u32 100 128 200 % 256)) =
        (200 * (255 - 128)) >>> 8 :=
  ⟨(hsv2u32_channel_bounds 100 128 200 (by decide)).1,
   (hsv2u32_channel_bounds 100 128 200 (by decide)).2.1⟩

/-- C17: `fill` stores inside the store only, for all `first` and `count`,
wrapped sums included. On a store whose buffer has exactly `pixelCount` words
no store of `fill` is out of bounds: the call returns, and its loop range
`first ≤ i < end` lies below `pixelCount`. When the buffer is longer, the words
at indices `≥ pixelCount` are unchanged. A run of the loop over that range
returns only on a buffer that contains the whole range. -/
theorem fill_writes_inside (s : OdePixels) (hlen : s.pixelCount ≤ s.pixelData.length)
    (color first count : Nat) :
    ∃ s', fill s color first count = .ok s' ∧
      (∀ i, first ≤ i → i < fillStop s first count → i < s.pixelCount) ∧
      (∀ i, s.pixelCount ≤ i → s'.pixelData[i]? = s.pixelData[i]?) ∧
      (∀ d d', fillLoop color (fillStop s first count - first) first d = .ok d' →
        fillStop s first count - first ≠ 0 → fillStop s first count ≤ d.length) := by
  have hstop := fillStop_le s first count
  obtain ⟨s', hrun, -, -, hget⟩ := fill_spec_le s hlen color first count
  refine ⟨s', hrun, fun i _ hi => by omega, fun i hi => ?_, fun d d' hd hk => ?_⟩
  · rw [hget i, if_neg (by omega)]
  · have := fillLoop_inside color _ first d d' hd hk
    omega

theorem fill_writes_inside_witness :
    ∃ s', fill ⟨4, [1, 2, 3, 4, 5]⟩ 9 3 4294967295 = .ok s' ∧
      (∀ i, 3 ≤ i → i < fillStop ⟨4, [1, 2, 3, 4, 5]⟩ 3 4294967295 → i < 4) ∧
      (∀ i, 4 ≤ i → s'.pixelData[i]? = [1, 2, 3, 4, 5][i]?) ∧
      (∀ d d', fillLoop 9 (fillStop ⟨4, [1, 2, 3, 4, 5]⟩ 3 4294967295 - 3) 3 d = .ok d' →
        fillStop ⟨4, [1, 2, 3, 4, 5]⟩ 3 4294967295 - 3 ≠ 0 →
        fillStop ⟨4, [1, 2, 3, 4, 5]⟩ 3 4294967295 ≤ d.length) :=
  fill_writes_inside ⟨4, [1, 2, 3, 4, 5]⟩ (by decide) 9 3 4294967295

/-- C20: on a well-formed store `setPixelColor n color` with `n < pixelCount`
returns a store with the same pixel count in which slot `n` holds `color` and
every slot `m ≠ n` holds what it held before. -/
theorem setPixelColor_frame (s : OdePixels) (hwf : s.WF) (n color : Nat)
    (hn : n < s.pixelCount) :
    ∃ s', setPixelColor s n color = .ok (s', none) ∧ s'.pixelCount = s.pixelCount ∧
      s'.pixelData.length = s.pixelData.length ∧
      s'.pixelData[n]? = some color ∧
      ∀ m, m ≠ n → s'.pixelData[m]? = s.pixelData[m]? := by
  refine ⟨_, setPixelColor_ok s n color hn hwf.2, rfl, ?_, ?_, fun m hm => ?_⟩
  · show (s.pixelData.set n color).length = _
    rw [List.length_set]
  · show (s.pixelData.set n color)[n]? = _
    rw [List.getElem?_set_self (by rw [hwf.2]; exact hn)]
  · show (s.pixelData.set n color)[m]? = _
    rw [List.getElem?_set_ne (Ne.symm hm)]

theorem setPixelColor_frame_witness :
    ∃ s', setPixelColor ⟨3, [1, 2, 3]⟩ 1 9 = .ok (s', none) ∧ s'.pixelCount = 3 ∧
      s'.pixelData.length = [1, 2, 3].length ∧
      s'.pixelData[1]? = some 9 ∧
      ∀ m, m ≠ 1 → s'.pixelData[m]? = [1, 2, 3][m]? :=
  setPixelColor_frame ⟨3, [1, 2, 3]⟩ (by decide) 1 9 (by decide)

/-- C13, at a store the claim covers and the code does not: with 256 pixels
`clear` leaves 256 zeros, but the `show` that follows builds no frame.
Whatever the step budget `init` does not return, and from 257 tests of the
loop condition on it stores past the buffer of `show`. -/
theorem init_256_pixels_sends_no_frame :
    clear ⟨256, List.replicate 256 7⟩ = .ok ⟨256, List.replicate 256 0⟩ ∧
    (∀ fuel r, init fuel ⟨256, List.replicate 256 7⟩ ≠ .ok r) ∧
    (∀ f, init (f + 257) ⟨256, List.replicate 256 7⟩ = .error .outOfBounds) := by
  have hclear : clear ⟨256, List.replicate 256 7⟩ = .ok ⟨256, List.replicate 256 0⟩ :=
    clear_spec ⟨256, List.replicate 256 7⟩ (List.length_replicate 256 7)
  refine ⟨hclear, fun fuel r h => ?_, fun f => ?_⟩
  · rw [init_of_clear _ _ fuel hclear] at h
    obtain ⟨data, hshow, -⟩ := bind_ok_inv h
    exact showPixels_no_result _ (Nat.le_refl 256) fuel data hshow
  · rw [init_of_clear _ _ (f + 257) hclear,
      showPixels_256_fault _ rfl (List.length_replicate 256 0) (f + 257) (by omega)]
    rfl

/-- Calls of `show` that return: each hands back the data members it was
given, and two of them on stores with equal count and equal contents return
equal buffers, whatever their step budgets. On a well-formed store of at most
255 pixels the calls do return, also one after the other on the store the
first call leaves. -/
theorem show_is_pure (s1 s2 : OdePixels) (hwf : s1.WF) (hc : s1.pixelCount ≤ 255)
    (hcount : s1.pixelCount = s2.pixelCount) (hdata : s1.pixelData = s2.pixelData)
    (fuel1 fuel2 : Nat) (hf1 : s1.pixelCount < fuel1) (hf2 : s2.pixelCount < fuel2) :
    (∃ data, showCall fuel1 s1 = .ok (s1, data) ∧ showCall fuel2 s2 = .ok (s2, data) ∧
      (showCall fuel1 s1 >>= fun r => showCall fuel2 r.1) = .ok (s1, data)) ∧
    (∀ (t1 t2 : OdePixels) (f1 f2 : Nat) (r1 r2 : OdePixels × List (Option Nat)),
      t1.pixelCount = t2.pixelCount → t1.pixelData = t2.pixelData →
      showCall f1 t1 = .ok r1 → showCall f2 t2 = .ok r2 →
      r1.1 = t1 ∧ r2.1 = t2 ∧ r1.2 = r2.2) := by
  have hcall : ∀ f t, showCall f t =
      (showPixels f t >>= fun data => (Except.ok (t, data) : Run _)) := fun _ _ => rfl
  have hs : s2 = s1 := by
    cases s1
    cases s2
    simp only at hcount hdata
    rw [hcount, hdata]
  subst hs
  constructor
  · obtain ⟨d1, hrun1, -⟩ := showPixels_spec s2 hc hwf.2 fuel1 hf1
    obtain ⟨d2, hrun2, -⟩ := showPixels_spec s2 hc hwf.2 fuel2 hf2
    have hd := showPixels_fuel_irrelevant s2 fuel1 fuel2 d1 d2 hrun1 hrun2
    subst hd
    have h1 : showCall fuel1 s2 = .ok (s2, d1) := by rw [hcall, hrun1]; rfl
    have h2 : showCall fuel2 s2 = .ok (s2, d1) := by rw [hcall, hrun2]; rfl
    refine ⟨d1, h1, h2, ?_⟩
    rw [h1]
    exact h2
  · intro t1 t2 f1 f2 r1 r2 hc' hd' h1 h2
    have ht : t2 = t1 := by
      cases t1
      cases t2
      simp only at hc' hd'
      rw [hc', hd']
    subst ht
    rw [hcall] at h1 h2
    obtain ⟨d1, hrun1, e1⟩ := bind_ok_inv h1
    obtain ⟨d2, hrun2, e2⟩ := bind_ok_inv h2
    cases e1
    cases e2
    exact ⟨rfl, rfl, showPixels_fuel_irrelevant t2 f1 f2 d1 d2 hrun1 hrun2⟩

theorem show_is_pure_witness :
    ∃ data, showCall 3 ⟨2, [5, 6]⟩ = .ok (⟨2, [5, 6]⟩, data) ∧
      showCall 4 ⟨2, [5, 6]⟩ = .ok (⟨2, [5, 6]⟩, data) ∧
      (showCall 3 ⟨2, [5, 6]⟩ >>= fun r => showCall 4 r.1) = .ok (⟨2, [5, 6]⟩, data) :=
  (show_is_pure ⟨2, [5, 6]⟩ ⟨2, [5, 6]⟩ (by decide) (by decide) rfl rfl 3 4
    (by decide) (by decide)).1

/-- C15, at a store the claim covers and the code does not: with 300 pixels
the encoding loop of `show` does not run to completion. No step budget gives
a buffer, and after 256 rounds, with `24*256` symbol bytes written, the loop
stands at pixel index 0 again: the indices 256..299 are never reached. -/
theorem show_300_pixels_loop_never_ends :
    (∀ fuel data, showPixels fuel ⟨300, List.replicate 300 0⟩ ≠ .ok data) ∧
    (∀ fuel b, b.p + 24 * 256 ≤ b.data.length →
      ∃ b', showLoop ⟨300, List.replicate 300 0⟩ (fuel + 256) 0 b =
          showLoop ⟨300, List.replicate 300 0⟩ fuel 0 b' ∧
        b'.p = b.p + 24 * 256) := by
  refine ⟨fun fuel data => showPixels_no_result _ (by decide) fuel data, fun fuel b hb => ?_⟩
  obtain ⟨b', hrun, hp, -⟩ :=
    showLoop_steps ⟨300, List.replicate 300 0⟩ 256 0 b fuel (by omega) (by omega)
      (by decide) (by rw [List.length_replicate]; omega) hb
  exact ⟨b', hrun, hp⟩

/-- C18: for two well-formed stores of the same count, at most 255 pixels,
`show` builds equal buffers exactly when corresponding pixels agree modulo
`2^24`. Every bit `23 - j` of pixel `i` can be read off byte `1 + 24*i + j`
of the buffer, and a colour that `setPixelColor` stores with bits 31..24 set
gives the same buffer as the colour without them. -/
theorem show_carries_low_24_bits (s1 s2 : OdePixels) (hwf1 : s1.WF) (hwf2 : s2.WF)
    (hcount : s1.pixelCount = s2.pixelCount) (hc : s1.pixelCount ≤ 255)
    (fuel : Nat) (hf : s1.pixelCount < fuel) :
    (showPixels fuel s1 = showPixels fuel s2 ↔
      ∀ i, i < s1.pixelCount →
        s1.pixelData.getD i 0 % 2 ^ 24 = s2.pixelData.getD i 0 % 2 ^ 24) ∧
    (∃ data, showPixels fuel s1 = .ok data ∧
      ∀ i j, i < s1.pixelCount → j < 24 →
        (s1.pixelData.getD i 0).testBit (23 - j) =
          decide (data[1 + 24 * i + j]? = some (some WS2812_H))) ∧
    (∀ i C, i < s1.pixelCount →
      ∃ sa sb, setPixelColor s1 i C = .ok (sa, none) ∧
        setPixelColor s1 i (C % 2 ^ 24) = .ok (sb, none) ∧
        (getPixelData sa)[i]? = some C ∧ showPixels fuel sa = showPixels fuel sb) := by
  refine ⟨showPixels_eq_iff s1 s2 hc hwf1.2 hwf2.2 hcount fuel hf, ?_, ?_⟩
  · obtain ⟨d, hrun, -, -, hs⟩ := showPixels_spec s1 hc hwf1.2 fuel hf
    refine ⟨d, hrun, fun i j hi hj => ?_⟩
    rw [hs i j hi hj]
    cases (s1.pixelData.getD i 0).testBit (23 - j) <;> simp [symbolOf, WS2812_H, WS2812_L]
  · intro i C hi
    have hil : i < s1.pixelData.length := by rw [hwf1.2]; exact hi
    refine ⟨_, _, setPixelColor_ok s1 i C hi hwf1.2,
      setPixelColor_ok s1 i (C % 2 ^ 24) hi hwf1.2, ?_, ?_⟩
    · show (s1.pixelData.set i C)[i]? = some C
      rw [List.getElem?_set_self hil]
    · apply (showPixels_eq_iff ⟨s1.pixelCount, s1.pixelData.set i C⟩
        ⟨s1.pixelCount, s1.pixelData.set i (C % 2 ^ 24)⟩ hc (by simp [hwf1.2])
        (by simp [hwf1.2]) rfl fuel hf).2
      intro k _
      show (s1.pixelData.set i C).getD k 0 % 2 ^ 24 =
        (s1.pixelData.set i (C % 2 ^ 24)).getD k 0 % 2 ^ 24
      rw [List.getD_eq_getElem?_getD, List.getD_eq_getElem?_getD]
      by_cases hk : i = k
      · subst hk
        rw [List.getElem?_set_self hil, List.getElem?_set_self hil]
        simp
      · rw [List.getElem?_set_ne hk, List.getElem?_set_ne hk]

theorem show_carries_low_24_bits_witness :
    showPixels 3 ⟨2, [0xFF000001, 2]⟩ = showPixels 3 ⟨2, [1, 0xAB000002]⟩ ↔
      ∀ i, i < 2 →
        [0xFF000001, 2].getD i 0 % 2 ^ 24 = [1, 0xAB000002].getD i 0 % 2 ^ 24 :=
  (show_carries_low_24_bits ⟨2, [0xFF000001, 2]⟩ ⟨2, [1, 0xAB000002]⟩ (by decide) (by decide)
    rfl (by decide) 3 (by decide)).1

/-- C14, at a store the claim covers and the code does not: with 256 pixels
a call of `show` is no function of the store to a buffer. No step budget
makes the call return a store and a buffer, so no two calls build equal
buffers; and from 257 tests of the loop condition on, the call stores outside
its own array `data`, an effect beyond the buffer it is to build. -/
theorem show_call_256_pixels_not_pure :
    (∀ fuel r, showCall fuel ⟨256, List.replicate 256 1⟩ ≠ .ok r) ∧
    (∀ f, showCall (f + 257) ⟨256, List.replicate 256 1⟩ = .error .outOfBounds) ∧
    (∀ f1 f2, ¬ ∃ data, showCall f1 ⟨256, List.replicate 256 1⟩ =
        .ok (⟨256, List.replicate 256 1⟩, data) ∧
      showCall f2 ⟨256, List.replicate 256 1⟩ = .ok (⟨256, List.replicate 256 1⟩, data)) := by
  have hno : ∀ fuel r, showCall fuel ⟨256, List.replicate 256 1⟩ ≠ .ok r := by
    intro fuel r h
    rw [showCall_eq] at h
    obtain ⟨data, hshow, -⟩ := bind_ok_inv h
    exact showPixels_no_result _ (Nat.le_refl 256) fuel data hshow
  refine ⟨hno, fun f => ?_, fun f1 f2 h => ?_⟩
  · rw [showCall_eq,
      showPixels_256_fault _ rfl (List.length_replicate 256 1) (f + 257) (by omega)]
    rfl
  · obtain ⟨data, h1, -⟩ := h
    exact hno f1 _ h1

end OdePixels
